import Mathlib

/-!
Verification development for the `serde_json_ext` repository: a shallow
embedding of its configurable JSON byte-codec layer (configuration object,
hex/base64/array byte codecs, deserialization/serialization wrappers, and
the `from_str` / `from_slice` / `from_reader` / `from_value` entry points),
together with theorems settling the claims of the specification.

Bytes are embedded as `Nat` values (with explicit `< 256` bounds where the
Rust type `u8` guarantees them); fallible operations return `Except`.
-/

/-- Modelled from the spec: the byte-encoding mode of the missing
`config.rs` module (`byte_mode` field values Array | Hex | Base64). -/
inductive ByteMode where
  | array : ByteMode
  | hex : ByteMode
  | base64 : ByteMode
deriving DecidableEq

/-- Modelled from the spec: the `Config` value object of the missing
`config.rs` module, fields `byte_mode` and `hex_prefix_enabled`. -/
structure Config where
  byte_mode : ByteMode
  hex_prefix_enabled : Bool
deriving DecidableEq

/-- Modelled from the spec: `Config::default()` returns
`byte_mode = Array`, `hex_prefix_enabled = false`. -/
def Config.default : Config := ⟨ByteMode.array, false⟩

/-- Modelled from the spec: mutator `set_bytes_hex` of `config.rs`. -/
def set_bytes_hex (c : Config) : Config := { c with byte_mode := ByteMode.hex }

/-- Modelled from the spec: mutator `set_bytes_base64` of `config.rs`. -/
def set_bytes_base64 (c : Config) : Config := { c with byte_mode := ByteMode.base64 }

/-- Modelled from the spec: mutator `set_bytes_array` of `config.rs`. -/
def set_bytes_array (c : Config) : Config := { c with byte_mode := ByteMode.array }

/-- Modelled from the spec: mutator of `config.rs` switching the hex
prefix option on. -/
def enable_hex_prefix (c : Config) : Config := { c with hex_prefix_enabled := true }

/-- Modelled from the spec: mutator of `config.rs` switching the hex
prefix option off. -/
def disable_hex_prefix (c : Config) : Config := { c with hex_prefix_enabled := false }

/-- Modelled from the spec: the codec error taxonomy of the missing
`formatter.rs` module (section 4.2 / 7 of the specification). -/
inductive DecodeError where
  | OddLength : DecodeError
  | InvalidHexDigit : DecodeError
  | InvalidBase64 : DecodeError
  | ValueOutOfRange : DecodeError
  | NotAnInteger : DecodeError
  | WrongShape : DecodeError
deriving DecidableEq

/-- A JSON number as the wire carries it: either integral syntax, or a
number with a fractional part (kept as raw text), mirroring the
integer / floating distinction of serde_json as far as the claims need it. -/
inductive JNumber where
  | int (i : Int) : JNumber
  | other (raw : String) : JNumber
deriving DecidableEq

/-- The generic JSON value tree of the collaborator JSON library. -/
inductive Json where
  | null : Json
  | bool (b : Bool) : Json
  | num (n : JNumber) : Json
  | str (s : String) : Json
  | arr (xs : List Json) : Json
  | obj (members : List (String × Json)) : Json

/-! ## Hex codec (modelled from the spec: `formatter.rs` is missing) -/

/-- Lowercase hex digit for a value below 16. -/
def hexChar (n : Nat) : Char :=
  if n < 10 then Char.ofNat (48 + n) else Char.ofNat (87 + n)

/-- Case-insensitive hex digit value, `none` when not a hex digit. -/
def hexVal (ch : Char) : Option Nat :=
  let n := ch.toNat
  if 48 ≤ n ∧ n ≤ 57 then some (n - 48)
  else if 97 ≤ n ∧ n ≤ 102 then some (n - 87)
  else if 65 ≤ n ∧ n ≤ 70 then some (n - 55)
  else none

/-- Lowercase hex pair per byte. -/
def hexDigits : List Nat → List Char
  | [] => []
  | b :: rest => hexChar (b / 16) :: hexChar (b % 16) :: hexDigits rest

/-- Strips one optional leading `0x` or `0X`. -/
def stripHexPref (cs : List Char) : List Char :=
  match cs with
  | c0 :: c1 :: rest => if c0 = '0' ∧ (c1 = 'x' ∨ c1 = 'X') then rest else cs
  | _ => cs

/-- Decodes pairs of hex digits into bytes; `InvalidHexDigit` on a
non-hex character. -/
def decodeHexPairs : List Char → Except DecodeError (List Nat)
  | [] => Except.ok []
  | c1 :: c2 :: rest =>
    match hexVal c1, hexVal c2 with
    | some h, some l =>
      match decodeHexPairs rest with
      | Except.ok bs => Except.ok ((h * 16 + l) :: bs)
      | Except.error e => Except.error e
    | _, _ => Except.error DecodeError.InvalidHexDigit
  | _ => Except.error DecodeError.OddLength

/-- The bytes a valid even-length hex digit list denotes (garbage on
invalid input; used only to name the successful result). -/
def hexPairsVal : List Char → List Nat
  | c1 :: c2 :: rest => ((hexVal c1).getD 0 * 16 + (hexVal c2).getD 0) :: hexPairsVal rest
  | _ => []

/-- Modelled from the spec: hex-mode string decode of `formatter.rs` —
strips an optional `0x`/`0X` prefix regardless of configuration, fails
with `OddLength` when the remaining digit count is odd, with
`InvalidHexDigit` on a non-hex character. -/
def decodeHexStr (s : String) : Except DecodeError (List Nat) :=
  let cs := stripHexPref s.data
  if cs.length % 2 = 1 then Except.error DecodeError.OddLength
  else decodeHexPairs cs

/-! ## Base64 codec (modelled from the spec: `formatter.rs` is missing) -/

/-- Standard base64 alphabet character for a value below 64. -/
def b64Char (n : Nat) : Char :=
  if n < 26 then Char.ofNat (65 + n)
  else if n < 52 then Char.ofNat (71 + n)
  else if n < 62 then Char.ofNat (n - 4)
  else if n = 62 then '+' else '/'

/-- Standard base64 alphabet value, `none` when outside the alphabet. -/
def b64Val (ch : Char) : Option Nat :=
  let n := ch.toNat
  if 65 ≤ n ∧ n ≤ 90 then some (n - 65)
  else if 97 ≤ n ∧ n ≤ 122 then some (n - 71)
  else if 48 ≤ n ∧ n ≤ 57 then some (n + 4)
  else if n = 43 then some 62
  else if n = 47 then some 63
  else none

/-- Standard base64 encoding with `=` padding, three bytes per group. -/
def b64EncodeGroups : List Nat → List Char
  | [] => []
  | [a] => [b64Char (a / 4), b64Char (a % 4 * 16), '=', '=']
  | [a, b] => [b64Char (a / 4), b64Char (a % 4 * 16 + b / 16), b64Char (b % 16 * 4), '=']
  | a :: b :: c :: rest =>
    b64Char (a / 4) :: b64Char (a % 4 * 16 + b / 16) ::
      b64Char (b % 16 * 4 + c / 64) :: b64Char (c % 64) :: b64EncodeGroups rest

/-- Standard base64 decoding, four characters per group, `=` padding
accepted only at the very end; `InvalidBase64` on malformed input. -/
def b64DecodeGroups : List Char → Except DecodeError (List Nat)
  | [] => Except.ok []
  | w :: x :: y :: z :: rest =>
    match b64Val w, b64Val x with
    | some v1, some v2 =>
      if y = '=' then
        if z = '=' ∧ rest = [] then Except.ok [v1 * 4 + v2 / 16]
        else Except.error DecodeError.InvalidBase64
      else
        match b64Val y with
        | some v3 =>
          if z = '=' then
            if rest = [] then Except.ok [v1 * 4 + v2 / 16, v2 % 16 * 16 + v3 / 4]
            else Except.error DecodeError.InvalidBase64
          else
            match b64Val z with
            | some v4 =>
              match b64DecodeGroups rest with
              | Except.ok bs =>
                Except.ok ((v1 * 4 + v2 / 16) :: (v2 % 16 * 16 + v3 / 4) ::
                  (v3 % 4 * 64 + v4) :: bs)
              | Except.error e => Except.error e
            | none => Except.error DecodeError.InvalidBase64
        | none => Except.error DecodeError.InvalidBase64
    | _, _ => Except.error DecodeError.InvalidBase64
  | _ => Except.error DecodeError.InvalidBase64

/-- Modelled from the spec: base64-mode string decode of `formatter.rs`. -/
def decodeB64Str (s : String) : Except DecodeError (List Nat) :=
  b64DecodeGroups s.data

/-! ## Array codec and the full codec dispatch -/

/-- Modelled from the spec: array-mode element decode of `formatter.rs` —
`ValueOutOfRange` outside 0–255, `NotAnInteger` when the element is not a
whole number. -/
def decodeArrayElem : Json → Except DecodeError Nat
  | Json.num (JNumber.int i) =>
    if 0 ≤ i ∧ i ≤ 255 then Except.ok i.toNat
    else Except.error DecodeError.ValueOutOfRange
  | _ => Except.error DecodeError.NotAnInteger

/-- Array-mode decode over the elements, first error aborts. -/
def decodeArrayElems : List Json → Except DecodeError (List Nat)
  | [] => Except.ok []
  | x :: rest =>
    match decodeArrayElem x with
    | Except.ok b =>
      match decodeArrayElems rest with
      | Except.ok bs => Except.ok (b :: bs)
      | Except.error e => Except.error e
    | Except.error e => Except.error e

/-- Modelled from the spec: `formatter.rs` encode — Array mode emits the
integers unchanged, Hex mode lowercase pairs with `0x` iff
`hex_prefix_enabled`, Base64 mode standard padded base64. -/
def encodeCodec (c : Config) (bs : List Nat) : Json :=
  match c.byte_mode with
  | ByteMode.array => Json.arr (bs.map (fun b => Json.num (JNumber.int (Int.ofNat b))))
  | ByteMode.hex =>
    Json.str (String.mk ((if c.hex_prefix_enabled then ['0', 'x'] else []) ++ hexDigits bs))
  | ByteMode.base64 => Json.str (String.mk (b64EncodeGroups bs))

/-- Modelled from the spec: `formatter.rs` decode — accepts the wire shape
implied by `byte_mode`, `WrongShape` when the representation does not have
that shape. -/
def decodeCodec (c : Config) (j : Json) : Except DecodeError (List Nat) :=
  match c.byte_mode with
  | ByteMode.hex =>
    match j with
    | Json.str s => decodeHexStr s
    | _ => Except.error DecodeError.WrongShape
  | ByteMode.base64 =>
    match j with
    | Json.str s => decodeB64Str s
    | _ => Except.error DecodeError.WrongShape
  | ByteMode.array =>
    match j with
    | Json.arr xs => decodeArrayElems xs
    | _ => Except.error DecodeError.WrongShape

/-! ## Deserialization wrapper (modelled from the spec: `de.rs` /
`de_bytes.rs` are missing). The target type of a decode is a schema `Ty`;
byte-sequence leaves are routed through the codec, everything else is
delegated unchanged to the wrapped (generic) JSON deserializer. -/

mutual
/-- A decode-target type: byte buffer, primitives, optional, sequence,
or a struct with named fields. -/
inductive Ty where
  | bytes : Ty
  | tint : Ty
  | tbool : Ty
  | tstr : Ty
  | topt : Ty → Ty
  | tlist : Ty → Ty
  | trec : Fields → Ty

/-- Named, typed struct fields. -/
inductive Fields where
  | fnil : Fields
  | fcons : String → Ty → Fields → Fields
end

mutual
/-- A decoded value. -/
inductive Val where
  | vbytes : List Nat → Val
  | vint : Int → Val
  | vbool : Bool → Val
  | vstr : String → Val
  | vnone : Val
  | vsome : Val → Val
  | vlist : Vals → Val
  | vrec : FVals → Val

/-- A list of decoded values. -/
inductive Vals where
  | nil : Vals
  | cons : Val → Vals → Vals

/-- Named decoded field values. -/
inductive FVals where
  | nil : FVals
  | cons : String → Val → FVals → FVals
end

/-- The host deserialization error type: codec errors are translated into
it, everything else is validation done by the wrapped deserializer. -/
inductive JsonError where
  | codec : DecodeError → JsonError
  | syntaxError : JsonError
  | typeMismatch : JsonError
  | missingField : JsonError
deriving DecidableEq

/-- Decodes every element of a JSON array with the given element decoder,
first error aborts. -/
def exceptList (f : Json → Except JsonError Val) : List Json → Except JsonError Vals
  | [] => Except.ok Vals.nil
  | j :: rest =>
    match f j with
    | Except.ok v =>
      match exceptList f rest with
      | Except.ok vs => Except.ok (Vals.cons v vs)
      | Except.error e => Except.error e
    | Except.error e => Except.error e

/-- First value bound to a key in a JSON object. -/
def lookupField (name : String) : List (String × Json) → Option Json
  | [] => none
  | (k, v) :: rest => if k = name then some v else lookupField name rest

/-- Decodes the fields of a struct by name from a JSON object with the given
field decoder; a missing optional field becomes `vnone`, any other
missing field is an error. -/
def exceptFields (f : Ty → Json → Except JsonError Val) :
    Fields → List (String × Json) → Except JsonError FVals
  | Fields.fnil, _ => Except.ok FVals.nil
  | Fields.fcons name t rest, kvs =>
    match lookupField name kvs with
    | some j =>
      match f t j with
      | Except.ok v =>
        match exceptFields f rest kvs with
        | Except.ok r => Except.ok (FVals.cons name v r)
        | Except.error e => Except.error e
      | Except.error e => Except.error e
    | none =>
      match t with
      | Ty.topt _ =>
        match exceptFields f rest kvs with
        | Except.ok r => Except.ok (FVals.cons name Val.vnone r)
        | Except.error e => Except.error e
      | _ => Except.error JsonError.missingField

/-- Modelled from the spec: the recursive deserialization wrapper of the
missing `de.rs` — byte-sequence leaves go through the configured codec,
every other decode request is delegated unchanged; nested decoders carry
the same configuration. The fuel argument only bounds the depth of the
target type `Ty` and is supplied as `tyDepth` below. -/
def decodeTyF (c : Config) : Nat → Ty → Json → Except JsonError Val
  | 0, _, _ => Except.error JsonError.typeMismatch
  | fuel + 1, t, j =>
    match t with
    | Ty.bytes =>
      match decodeCodec c j with
      | Except.ok bs => Except.ok (Val.vbytes bs)
      | Except.error e => Except.error (JsonError.codec e)
    | Ty.tint =>
      match j with
      | Json.num (JNumber.int i) => Except.ok (Val.vint i)
      | _ => Except.error JsonError.typeMismatch
    | Ty.tbool =>
      match j with
      | Json.bool b => Except.ok (Val.vbool b)
      | _ => Except.error JsonError.typeMismatch
    | Ty.tstr =>
      match j with
      | Json.str s => Except.ok (Val.vstr s)
      | _ => Except.error JsonError.typeMismatch
    | Ty.topt t1 =>
      match j with
      | Json.null => Except.ok Val.vnone
      | _ =>
        match decodeTyF c fuel t1 j with
        | Except.ok v => Except.ok (Val.vsome v)
        | Except.error e => Except.error e
    | Ty.tlist t1 =>
      match j with
      | Json.arr xs =>
        match exceptList (decodeTyF c fuel t1) xs with
        | Except.ok vs => Except.ok (Val.vlist vs)
        | Except.error e => Except.error e
      | _ => Except.error JsonError.typeMismatch
    | Ty.trec fs =>
      match j with
      | Json.obj kvs =>
        match exceptFields (decodeTyF c fuel) fs kvs with
        | Except.ok r => Except.ok (Val.vrec r)
        | Except.error e => Except.error e
      | _ => Except.error JsonError.typeMismatch

mutual
/-- Structural depth of a target type (at least 1). -/
def tyDepth : Ty → Nat
  | Ty.bytes => 1
  | Ty.tint => 1
  | Ty.tbool => 1
  | Ty.tstr => 1
  | Ty.topt t => tyDepth t + 1
  | Ty.tlist t => tyDepth t + 1
  | Ty.trec fs => fieldsDepth fs + 1

/-- Structural depth of a field list. -/
def fieldsDepth : Fields → Nat
  | Fields.fnil => 0
  | Fields.fcons _ t rest => max (tyDepth t) (fieldsDepth rest)
end

/-- The wrapper decoder at its canonical fuel. -/
def decodeTy (c : Config) (t : Ty) (j : Json) : Except JsonError Val :=
  decodeTyF c (tyDepth t) t j

mutual
/-- Does the target type contain a byte-sequence leaf anywhere? -/
def hasBytesTy : Ty → Bool
  | Ty.bytes => true
  | Ty.tint => false
  | Ty.tbool => false
  | Ty.tstr => false
  | Ty.topt t => hasBytesTy t
  | Ty.tlist t => hasBytesTy t
  | Ty.trec fs => hasBytesFields fs

/-- Does the type of any field contain a byte-sequence leaf? -/
def hasBytesFields : Fields → Bool
  | Fields.fnil => false
  | Fields.fcons _ t rest => hasBytesTy t || hasBytesFields rest
end

mutual
/-- Does the value contain a byte buffer anywhere? -/
def hasBytesVal : Val → Bool
  | Val.vbytes _ => true
  | Val.vint _ => false
  | Val.vbool _ => false
  | Val.vstr _ => false
  | Val.vnone => false
  | Val.vsome v => hasBytesVal v
  | Val.vlist vs => hasBytesVals vs
  | Val.vrec fvs => hasBytesFVals fvs

/-- Does any element contain a byte buffer? -/
def hasBytesVals : Vals → Bool
  | Vals.nil => false
  | Vals.cons v rest => hasBytesVal v || hasBytesVals rest

/-- Does any field value contain a byte buffer? -/
def hasBytesFVals : FVals → Bool
  | FVals.nil => false
  | FVals.cons _ v rest => hasBytesVal v || hasBytesFVals rest
end

/-! ## Serialization wrapper (modelled from the spec: `ser_bytes.rs` /
`to.rs` are missing): transparent passthrough for every value except byte
buffers, which are converted through the configured codec; nested
serializers carry the same configuration. -/

mutual
/-- Modelled from the spec: the recursive serialization wrapper. -/
def encodeVal (c : Config) : Val → Json
  | Val.vbytes bs => encodeCodec c bs
  | Val.vint i => Json.num (JNumber.int i)
  | Val.vbool b => Json.bool b
  | Val.vstr s => Json.str s
  | Val.vnone => Json.null
  | Val.vsome v => encodeVal c v
  | Val.vlist vs => Json.arr (encodeVals c vs)
  | Val.vrec fvs => Json.obj (encodeFVals c fvs)

/-- Element-wise serialization of a list value. -/
def encodeVals (c : Config) : Vals → List Json
  | Vals.nil => []
  | Vals.cons v rest => encodeVal c v :: encodeVals c rest

/-- Field-wise serialization of a struct value. -/
def encodeFVals (c : Config) : FVals → List (String × Json)
  | FVals.nil => []
  | FVals.cons name v rest => (name, encodeVal c v) :: encodeFVals c rest
end

/-! ## Collaborator JSON library: byte-level parser and printer. The spec
delegates JSON tokenization to an external library; this is a shallow
model of it sufficient for the entry points (ASCII strings, integral and
decimal-fraction numbers, arrays, objects, `true`/`false`/`null`). -/

/-- JSON whitespace bytes. -/
def isWsB (b : Nat) : Bool := b = 32 || b = 9 || b = 10 || b = 13

/-- Skips leading whitespace bytes. -/
def skipWs : List Nat → List Nat
  | b :: rest => if isWsB b then skipWs rest else b :: rest
  | [] => []

/-- ASCII decimal digit bytes. -/
def isDigitB (b : Nat) : Bool := 48 ≤ b && b ≤ 57

/-- Splits off the longest leading run of digit bytes. -/
def takeDigits : List Nat → List Nat × List Nat
  | b :: rest =>
    if isDigitB b then
      let p := takeDigits rest
      (b :: p.1, p.2)
    else ([], b :: rest)
  | [] => ([], [])

/-- Value of a digit-byte string. -/
def digitsToNat (ds : List Nat) : Nat := ds.foldl (fun acc d => acc * 10 + (d - 48)) 0

/-- Parses the body of a JSON string after the opening quote (ASCII
contents, `\"` `\\` `\n` `\t` escapes). -/
def parseStringBody : List Nat → List Char → Option (String × List Nat)
  | [], _ => none
  | 34 :: rest, acc => some (String.mk acc.reverse, rest)
  | 92 :: b :: rest, acc =>
    if b = 34 then parseStringBody rest ('"' :: acc)
    else if b = 92 then parseStringBody rest ('\\' :: acc)
    else if b = 110 then parseStringBody rest ('\n' :: acc)
    else if b = 116 then parseStringBody rest ('\t' :: acc)
    else none
  | b :: rest, acc =>
    if 32 ≤ b ∧ b < 128 ∧ b ≠ 34 ∧ b ≠ 92 then parseStringBody rest (Char.ofNat b :: acc)
    else none

/-- Negates a parsed nonnegative JSON number. -/
def negJNum : JNumber → JNumber
  | JNumber.int i => JNumber.int (-i)
  | JNumber.other raw => JNumber.other (String.mk ('-' :: raw.data))

/-- Parses a nonnegative JSON number: digits, optionally a dot and more
digits (the latter yields a non-integral number). -/
def parseNumCore (input : List Nat) : Option (JNumber × List Nat) :=
  let p := takeDigits input
  if p.1.isEmpty then none
  else
    match p.2 with
    | 46 :: rr =>
      let q := takeDigits rr
      if q.1.isEmpty then none
      else
        some (JNumber.other (String.mk (p.1.map Char.ofNat ++ '.' :: q.1.map Char.ofNat)), q.2)
    | _ => some (JNumber.int (Int.ofNat (digitsToNat p.1)), p.2)

/-- Parses a JSON number with an optional leading minus sign. -/
def parseNumber (input : List Nat) : Option (Json × List Nat) :=
  match input with
  | 45 :: rest => (parseNumCore rest).map (fun p => (Json.num (negJNum p.1), p.2))
  | _ => (parseNumCore input).map (fun p => (Json.num p.1, p.2))

mutual
/-- Recursive-descent JSON parser over input bytes; the fuel exceeds the
input length, so it never runs out on the inputs the entry points pass. -/
def parseValue : Nat → List Nat → Option (Json × List Nat)
  | 0, _ => none
  | fuel + 1, input =>
    match skipWs input with
    | 91 :: rest =>
      match skipWs rest with
      | 93 :: r2 => some (Json.arr [], r2)
      | _ =>
        match parseElems fuel rest with
        | some (js, r) => some (Json.arr js, r)
        | none => none
    | 123 :: rest =>
      match skipWs rest with
      | 125 :: r2 => some (Json.obj [], r2)
      | _ =>
        match parseMembers fuel rest with
        | some (ms, r) => some (Json.obj ms, r)
        | none => none
    | 34 :: rest =>
      match parseStringBody rest [] with
      | some (s, r) => some (Json.str s, r)
      | none => none
    | 110 :: 117 :: 108 :: 108 :: rest => some (Json.null, rest)
    | 116 :: 114 :: 117 :: 101 :: rest => some (Json.bool true, rest)
    | 102 :: 97 :: 108 :: 115 :: 101 :: rest => some (Json.bool false, rest)
    | rest => parseNumber rest

/-- Parses the non-empty element list of a JSON array up to `]`. -/
def parseElems : Nat → List Nat → Option (List Json × List Nat)
  | 0, _ => none
  | fuel + 1, input =>
    match parseValue fuel input with
    | some (j, rest) =>
      match skipWs rest with
      | 44 :: r2 =>
        match parseElems fuel r2 with
        | some (js, r3) => some (j :: js, r3)
        | none => none
      | 93 :: r2 => some ([j], r2)
      | _ => none
    | none => none

/-- Parses the non-empty member list of a JSON object up to `}`. -/
def parseMembers : Nat → List Nat → Option (List (String × Json) × List Nat)
  | 0, _ => none
  | fuel + 1, input =>
    match skipWs input with
    | 34 :: r1 =>
      match parseStringBody r1 [] with
      | some (k, r2) =>
        match skipWs r2 with
        | 58 :: r3 =>
          match parseValue fuel r3 with
          | some (v, r4) =>
            match skipWs r4 with
            | 44 :: r5 =>
              match parseMembers fuel r5 with
              | some (ms, r6) => some ((k, v) :: ms, r6)
              | none => none
            | 125 :: r5 => some ([(k, v)], r5)
            | _ => none
          | none => none
        | _ => none
      | none => none
    | _ => none
end

/-- UTF-8 encoding of one character. -/
def charUtf8 (ch : Char) : List Nat :=
  let n := ch.toNat
  if n < 128 then [n]
  else if n < 2048 then [192 + n / 64, 128 + n % 64]
  else if n < 65536 then [224 + n / 4096, 128 + n / 64 % 64, 128 + n % 64]
  else [240 + n / 262144, 128 + n / 4096 % 64, 128 + n / 64 % 64, 128 + n % 64]

/-- The UTF-8 bytes of a string, as the deserializer consumes them. -/
def strBytes (s : String) : List Nat := s.data.flatMap charUtf8

/-- Escapes one character for JSON string output. -/
def escChar (ch : Char) : List Char :=
  if ch = '"' then ['\\', '"']
  else if ch = '\\' then ['\\', '\\']
  else [ch]

/-- Prints one JSON number. -/
def printJNum : JNumber → String
  | JNumber.int i => toString i
  | JNumber.other raw => raw

mutual
/-- Modelled from the spec: the collaborator function `serde_json::to_string`
over the generic value tree (canonical JSON text, no added whitespace). -/
def printJson : Json → String
  | Json.null => "null"
  | Json.bool true => "true"
  | Json.bool false => "false"
  | Json.num n => printJNum n
  | Json.str s => String.mk ('"' :: s.data.flatMap escChar ++ ['"'])
  | Json.arr xs => "[" ++ printElems xs ++ "]"
  | Json.obj ms => "\x7b" ++ printMembers ms ++ "\x7d"

/-- Prints array elements separated by commas. -/
def printElems : List Json → String
  | [] => ""
  | [j] => printJson j
  | j :: rest => printJson j ++ "," ++ printElems rest

/-- Prints object members separated by commas. -/
def printMembers : List (String × Json) → String
  | [] => ""
  | [(k, v)] => String.mk ('"' :: k.data.flatMap escChar ++ ['"']) ++ ":" ++ printJson v
  | (k, v) :: rest =>
    String.mk ('"' :: k.data.flatMap escChar ++ ['"']) ++ ":" ++ printJson v ++ "," ++
      printMembers rest
end

/-! ## Entry points (source: `src/from.rs`). Each builds the underlying
JSON deserializer over its input bytes, wraps it with a clone of the
configuration, and runs deserialization of the target type. -/

/-- The common decode pipeline every entry point delegates to: parse one
JSON value from the bytes, require only trailing whitespace after it, and
run the configuration-carrying wrapper. -/
def deserializeWith (t : Ty) (input : List Nat) (c : Config) : Except JsonError Val :=
  match parseValue (input.length + 1) input with
  | some (j, rest) =>
    if skipWs rest = [] then decodeTy c t j else Except.error JsonError.syntaxError
  | none => Except.error JsonError.syntaxError

/-- `from_str` of `src/from.rs`: deserializes from a JSON string with the
given configuration. -/
def from_str (t : Ty) (s : String) (c : Config) : Except JsonError Val :=
  deserializeWith t (strBytes s) c

/-- `from_slice` of `src/from.rs`: deserializes from JSON bytes with the
given configuration. -/
def from_slice (t : Ty) (v : List Nat) (c : Config) : Except JsonError Val :=
  deserializeWith t v c

/-- `from_reader` of `src/from.rs`: deserializes from a reader, modelled
as the list of chunks the reader yields. -/
def from_reader (t : Ty) (chunks : List (List Nat)) (c : Config) : Except JsonError Val :=
  deserializeWith t chunks.flatten c

/-- `from_value` of `src/from.rs`: converts the generic value to a JSON
string first, then deserializes through `from_str`. -/
def from_value (t : Ty) (v : Json) (c : Config) : Except JsonError Val :=
  from_str t (printJson v) c

/-- The wording the specification gives for `from_value`: re-serialize the
already-parsed value to canonical JSON text, then re-parse that text
through `from_str` with the same configuration. -/
def from_value_spec (t : Ty) (v : Json) (c : Config) : Except JsonError Val :=
  from_str t (printJson v) c

/-! ## Auxiliary definitions used by the claim statements -/

/-- Is the character a lowercase hex digit (`0`–`9` or `a`–`f`)? -/
def isLowerHexDigit (ch : Char) : Bool :=
  (48 ≤ ch.toNat && ch.toNat ≤ 57) || (97 ≤ ch.toNat && ch.toNat ≤ 102)

/-- One wrapping layer around a byte-sequence field: a single-field
object, an array element, or an optional wrapper. -/
inductive Layer where
  | object (name : String) : Layer
  | elem : Layer
  | optional : Layer

/-- The target type of a byte buffer nested under the given layers. -/
def wrapTy : List Layer → Ty
  | [] => Ty.bytes
  | Layer.object name :: ls => Ty.trec (Fields.fcons name (wrapTy ls) Fields.fnil)
  | Layer.elem :: ls => Ty.tlist (wrapTy ls)
  | Layer.optional :: ls => Ty.topt (wrapTy ls)

/-- The wire value of a byte representation nested under the layers. -/
def wrapJson : List Layer → Json → Json
  | [], j => j
  | Layer.object name :: ls, j => Json.obj [(name, wrapJson ls j)]
  | Layer.elem :: ls, j => Json.arr [wrapJson ls j]
  | Layer.optional :: ls, j => wrapJson ls j

/-- The decoded value of a byte buffer nested under the layers. -/
def wrapVal : List Layer → Val → Val
  | [], v => v
  | Layer.object name :: ls, v => Val.vrec (FVals.cons name (wrapVal ls v) FVals.nil)
  | Layer.elem :: ls, v => Val.vlist (Vals.cons (wrapVal ls v) Vals.nil)
  | Layer.optional :: ls, v => Val.vsome (wrapVal ls v)

/-- Membership of a type among the types of a field list. -/
def tyInFields (t : Ty) : Fields → Prop
  | Fields.fnil => False
  | Fields.fcons _ t1 rest => t = t1 ∨ tyInFields t rest

/-- A JSON array element that array-mode decode accepts: an integral
number within 0–255. -/
def goodByteElem (j : Json) : Prop :=
  ∃ i : Int, j = Json.num (JNumber.int i) ∧ 0 ≤ i ∧ i ≤ 255

/-! ## Helper lemmas -/

theorem hexVal_hexChar_fin : ∀ n : Fin 16, hexVal (hexChar n.val) = some n.val := by decide

theorem hexVal_hexChar (n : Nat) (h : n < 16) : hexVal (hexChar n) = some n :=
  hexVal_hexChar_fin ⟨n, h⟩

theorem hexChar_ne_x_fin : ∀ n : Fin 16, hexChar n.val ≠ 'x' ∧ hexChar n.val ≠ 'X' := by decide

theorem b64Val_b64Char_fin : ∀ n : Fin 64, b64Val (b64Char n.val) = some n.val := by decide

theorem b64Val_b64Char (n : Nat) (h : n < 64) : b64Val (b64Char n) = some n :=
  b64Val_b64Char_fin ⟨n, h⟩

theorem b64Char_ne_pad_fin : ∀ n : Fin 64, b64Char n.val ≠ '=' := by decide

theorem b64Char_ne_pad (n : Nat) (h : n < 64) : b64Char n ≠ '=' :=
  b64Char_ne_pad_fin ⟨n, h⟩

/-! ## Claim theorems: configuration and entry points -/

/-- Claim C9: each configuration mutator updates exactly its one target
field and leaves the other field equal to that of the starting configuration;
the mutators are total, so no mutator can fail and any chain composes. -/
theorem config_mutators_frame (c : Config) :
    (set_bytes_hex c).byte_mode = ByteMode.hex ∧
    (set_bytes_hex c).hex_prefix_enabled = c.hex_prefix_enabled ∧
    (set_bytes_base64 c).byte_mode = ByteMode.base64 ∧
    (set_bytes_base64 c).hex_prefix_enabled = c.hex_prefix_enabled ∧
    (set_bytes_array c).byte_mode = ByteMode.array ∧
    (set_bytes_array c).hex_prefix_enabled = c.hex_prefix_enabled ∧
    ( enable_hex_prefix c).hex_prefix_enabled = true ∧
    ( enable_hex_prefix c).byte_mode = c.byte_mode ∧
    ( disable_hex_prefix c).hex_prefix_enabled = false ∧
    ( disable_hex_prefix c).byte_mode = c.byte_mode :=
  ⟨rfl, rfl, rfl, rfl, rfl, rfl, rfl, rfl, rfl, rfl⟩

/-- Claim C2: `from_value` is exactly the composition the specification
describes — serialize the generic value to canonical JSON text, then pass
that text to `from_str` with the same configuration; the result (decoded
value or error) is the same as that of the composition. -/
theorem from_value_refines_spec (t : Ty) (v : Json) (c : Config) :
    from_value t v c = from_value_spec t v c ∧
    from_value t v c = from_str t (printJson v) c :=
  ⟨rfl, rfl⟩

/-- Claim C10: the three byte-source entry points agree — `from_str` on a
string, `from_slice` on the UTF-8 bytes of that string, and `from_reader` over
a reader yielding exactly those bytes build the same decode pipeline and
return the same result. -/
theorem entry_points_agree (t : Ty) (s : String) (c : Config) :
    from_str t s c = from_slice t (strBytes s) c ∧
    (∀ chunks : List (List Nat), chunks.flatten = strBytes s →
      from_reader t chunks c = from_str t s c) := by
  refine ⟨rfl, ?_⟩
  intro chunks h
  show deserializeWith t chunks.flatten c = deserializeWith t (strBytes s) c
  rw [h]

theorem entry_points_agree_witness :
    ([[53], [52]] : List (List Nat)).flatten = strBytes "54" ∧
    from_reader Ty.tint [[53], [52]] Config.default = from_str Ty.tint "54" Config.default :=
  ⟨by decide, (entry_points_agree Ty.tint "54" Config.default).2 [[53], [52]] (by decide)⟩

theorem hexDigits_length : ∀ bs : List Nat, (hexDigits bs).length = 2 * bs.length
  | [] => rfl
  | b :: rest => by
    have ih := hexDigits_length rest
    simp only [hexDigits, List.length_cons]
    omega

theorem stripHexPref_hexDigits (bs : List Nat) (h : ∀ b ∈ bs, b < 256) :
    stripHexPref (hexDigits bs) = hexDigits bs := by
  cases bs with
  | nil => rfl
  | cons b rest =>
    have hb : b < 256 := h b (by simp)
    have hx := hexChar_ne_x_fin ⟨b % 16, by omega⟩
    show (if hexChar (b / 16) = '0' ∧ (hexChar (b % 16) = 'x' ∨ hexChar (b % 16) = 'X')
        then hexDigits rest else _) = _
    rw [if_neg]
    rintro ⟨-, h1 | h1⟩
    · exact hx.1 h1
    · exact hx.2 h1

theorem stripHexPref_valid : ∀ cs : List Char,
    (∀ ch ∈ cs, (hexVal ch).isSome = true) → stripHexPref cs = cs
  | [], _ => rfl
  | [_], _ => rfl
  | c0 :: c1 :: rest, h => by
    have h1 := h c1 (by simp)
    show (if c0 = '0' ∧ (c1 = 'x' ∨ c1 = 'X') then rest else _) = _
    rw [if_neg]
    rintro ⟨-, rfl | rfl⟩ <;> exact absurd h1 (by decide)

theorem decodeHexPairs_hexDigits : ∀ bs : List Nat, (∀ b ∈ bs, b < 256) →
    decodeHexPairs (hexDigits bs) = Except.ok bs
  | [], _ => rfl
  | b :: rest, h => by
    have hb : b < 256 := h b (by simp)
    have ih := decodeHexPairs_hexDigits rest (fun x hx => h x (by simp [hx]))
    have h1 : hexVal (hexChar (b / 16)) = some (b / 16) := hexVal_hexChar _ (by omega)
    have h2 : hexVal (hexChar (b % 16)) = some (b % 16) := hexVal_hexChar _ (by omega)
    simp only [hexDigits, decodeHexPairs, h1, h2, ih]
    have : b / 16 * 16 + b % 16 = b := by omega
    rw [this]

theorem decodeHexPairs_ok : ∀ cs : List Char,
    (∀ ch ∈ cs, (hexVal ch).isSome = true) → cs.length % 2 = 0 →
    decodeHexPairs cs = Except.ok (hexPairsVal cs)
  | [], _, _ => rfl
  | [_], _, he => by simp at he
  | c1 :: c2 :: rest, h, he => by
    obtain ⟨v1, hv1⟩ := Option.isSome_iff_exists.mp (h c1 (by simp))
    obtain ⟨v2, hv2⟩ := Option.isSome_iff_exists.mp (h c2 (by simp))
    have he2 : rest.length % 2 = 0 := by simp only [List.length_cons] at he; omega
    have ih := decodeHexPairs_ok rest (fun ch hc => h ch (by simp [hc])) he2
    simp [decodeHexPairs, hexPairsVal, hv1, hv2, ih]

theorem decodeHexPairs_bad : ∀ cs : List Char, cs.length % 2 = 0 →
    (∃ ch ∈ cs, hexVal ch = none) →
    decodeHexPairs cs = Except.error DecodeError.InvalidHexDigit
  | [], _, hbad => by simp at hbad
  | [_], he, _ => by simp at he
  | c1 :: c2 :: rest, he, hbad => by
    cases hv1 : hexVal c1 with
    | none => simp [decodeHexPairs, hv1]
    | some v1 =>
      cases hv2 : hexVal c2 with
      | none => simp [decodeHexPairs, hv1, hv2]
      | some v2 =>
        have hrest : ∃ ch ∈ rest, hexVal ch = none := by
          obtain ⟨ch, hch, hnone⟩ := hbad
          simp only [List.mem_cons] at hch
          rcases hch with rfl | rfl | hm
          · rw [hnone] at hv1; cases hv1
          · rw [hnone] at hv2; cases hv2
          · exact ⟨ch, hm, hnone⟩
        have he2 : rest.length % 2 = 0 := by simp only [List.length_cons] at he; omega
        have ih := decodeHexPairs_bad rest he2 hrest
        simp [decodeHexPairs, hv1, hv2, ih]

theorem b64_roundtrip : ∀ bs : List Nat, (∀ b ∈ bs, b < 256) →
    b64DecodeGroups (b64EncodeGroups bs) = Except.ok bs
  | [], _ => rfl
  | [a], h => by
    have ha : a < 256 := h a (by simp)
    have h1 : b64Val (b64Char (a / 4)) = some (a / 4) := b64Val_b64Char _ (by omega)
    have h2 : b64Val (b64Char (a % 4 * 16)) = some (a % 4 * 16) := b64Val_b64Char _ (by omega)
    simp [b64EncodeGroups, b64DecodeGroups, h1, h2]
    omega
  | [a, b], h => by
    have ha : a < 256 := h a (by simp)
    have hb : b < 256 := h b (by simp)
    have h1 : b64Val (b64Char (a / 4)) = some (a / 4) := b64Val_b64Char _ (by omega)
    have h2 : b64Val (b64Char (a % 4 * 16 + b / 16)) = some (a % 4 * 16 + b / 16) :=
      b64Val_b64Char _ (by omega)
    have h3 : b64Val (b64Char (b % 16 * 4)) = some (b % 16 * 4) := b64Val_b64Char _ (by omega)
    have hy : b64Char (b % 16 * 4) ≠ '=' := b64Char_ne_pad _ (by omega)
    simp [b64EncodeGroups, b64DecodeGroups, h1, h2, h3, hy]
    constructor <;> omega
  | a :: b :: c :: rest, h => by
    have ha : a < 256 := h a (by simp)
    have hb : b < 256 := h b (by simp)
    have hc : c < 256 := h c (by simp)
    have ih := b64_roundtrip rest (fun x hx => h x (by simp [hx]))
    have h1 : b64Val (b64Char (a / 4)) = some (a / 4) := b64Val_b64Char _ (by omega)
    have h2 : b64Val (b64Char (a % 4 * 16 + b / 16)) = some (a % 4 * 16 + b / 16) :=
      b64Val_b64Char _ (by omega)
    have h3 : b64Val (b64Char (b % 16 * 4 + c / 64)) = some (b % 16 * 4 + c / 64) :=
      b64Val_b64Char _ (by omega)
    have h4 : b64Val (b64Char (c % 64)) = some (c % 64) := b64Val_b64Char _ (by omega)
    have hy : b64Char (b % 16 * 4 + c / 64) ≠ '=' := b64Char_ne_pad _ (by omega)
    have hz : b64Char (c % 64) ≠ '=' := b64Char_ne_pad _ (by omega)
    simp [b64EncodeGroups, b64DecodeGroups, h1, h2, h3, h4, hy, hz, ih]
    refine ⟨by omega, by omega, by omega⟩

theorem decodeArrayElems_map : ∀ bs : List Nat, (∀ b ∈ bs, b < 256) →
    decodeArrayElems (bs.map (fun b => Json.num (JNumber.int (Int.ofNat b)))) = Except.ok bs
  | [], _ => rfl
  | b :: rest, h => by
    have hb : b < 256 := h b (by simp)
    have ih := decodeArrayElems_map rest (fun x hx => h x (by simp [hx]))
    have ih2 : decodeArrayElems (rest.map (fun b => Json.num (JNumber.int (Nat.cast b)))) =
        Except.ok rest := ih
    have hif : b ≤ 255 := by omega
    simp [decodeArrayElems, decodeArrayElem, ih2, hif]

/-- Claim C1: for every byte buffer and every configuration (all three
byte modes, both prefix settings), decoding the encoding yields exactly
the original buffer. -/
theorem decode_encode_roundtrip (c : Config) (bs : List Nat) (h : ∀ b ∈ bs, b < 256) :
    decodeCodec c (encodeCodec c bs) = Except.ok bs := by
  obtain ⟨bm, p⟩ := c
  cases bm with
  | array => exact decodeArrayElems_map bs h
  | base64 => exact b64_roundtrip bs h
  | hex =>
    cases p with
    | false =>
      show decodeHexStr (String.mk ([] ++ hexDigits bs)) = _
      unfold decodeHexStr
      rw [show (String.mk ([] ++ hexDigits bs)).data = hexDigits bs from rfl]
      rw [stripHexPref_hexDigits bs h, if_neg (by rw [hexDigits_length]; omega)]
      exact decodeHexPairs_hexDigits bs h
    | true =>
      show decodeHexStr (String.mk (['0', 'x'] ++ hexDigits bs)) = _
      unfold decodeHexStr
      rw [show (String.mk (['0', 'x'] ++ hexDigits bs)).data =
        '0' :: 'x' :: hexDigits bs from rfl]
      rw [show stripHexPref ('0' :: 'x' :: hexDigits bs) = hexDigits bs from by
        simp [stripHexPref]]
      rw [if_neg (by rw [hexDigits_length]; omega)]
      exact decodeHexPairs_hexDigits bs h

theorem decode_encode_roundtrip_witness :
    (∀ b ∈ [0, 10, 255], b < 256) ∧
    decodeCodec ⟨ByteMode.hex, true⟩ (encodeCodec ⟨ByteMode.hex, true⟩ [0, 10, 255]) =
      Except.ok [0, 10, 255] :=
  ⟨by decide, decode_encode_roundtrip ⟨ByteMode.hex, true⟩ [0, 10, 255] (by decide)⟩

/-- Claim C5: a valid even-length hex digit string decodes successfully
under Hex mode to the same byte buffer whether it is given bare, with a
`0x` prefix, or with a `0X` prefix, for both settings of
`hex_prefix_enabled`. -/
theorem hex_decode_leniency (cs : List Char)
    (h1 : ∀ ch ∈ cs, (hexVal ch).isSome = true) (h2 : cs.length % 2 = 0) (p : Bool) :
    decodeCodec ⟨ByteMode.hex, p⟩ (Json.str (String.mk cs)) =
      Except.ok (hexPairsVal cs) ∧
    decodeCodec ⟨ByteMode.hex, p⟩ (Json.str (String.mk ('0' :: 'x' :: cs))) =
      Except.ok (hexPairsVal cs) ∧
    decodeCodec ⟨ByteMode.hex, p⟩ (Json.str (String.mk ('0' :: 'X' :: cs))) =
      Except.ok (hexPairsVal cs) := by
  have hok := decodeHexPairs_ok cs h1 h2
  refine ⟨?_, ?_, ?_⟩
  · show decodeHexStr (String.mk cs) = _
    unfold decodeHexStr
    rw [show (String.mk cs).data = cs from rfl, stripHexPref_valid cs h1,
      if_neg (by omega), hok]
  · show decodeHexStr (String.mk ('0' :: 'x' :: cs)) = _
    unfold decodeHexStr
    rw [show (String.mk ('0' :: 'x' :: cs)).data = '0' :: 'x' :: cs from rfl,
      show stripHexPref ('0' :: 'x' :: cs) = cs from by simp [stripHexPref],
      if_neg (by omega), hok]
  · show decodeHexStr (String.mk ('0' :: 'X' :: cs)) = _
    unfold decodeHexStr
    rw [show (String.mk ('0' :: 'X' :: cs)).data = '0' :: 'X' :: cs from rfl,
      show stripHexPref ('0' :: 'X' :: cs) = cs from by simp [stripHexPref],
      if_neg (by omega), hok]

theorem hex_decode_leniency_witness :
    (∀ ch ∈ ['0', '1', '0', '2', '0', '3'], (hexVal ch).isSome = true) ∧
    ['0', '1', '0', '2', '0', '3'].length % 2 = 0 ∧
    decodeCodec ⟨ByteMode.hex, true⟩ (Json.str (String.mk ['0', '1', '0', '2', '0', '3'])) =
      Except.ok (hexPairsVal ['0', '1', '0', '2', '0', '3']) ∧
    decodeCodec ⟨ByteMode.hex, true⟩
        (Json.str (String.mk ('0' :: 'x' :: ['0', '1', '0', '2', '0', '3']))) =
      Except.ok (hexPairsVal ['0', '1', '0', '2', '0', '3']) ∧
    decodeCodec ⟨ByteMode.hex, true⟩
        (Json.str (String.mk ('0' :: 'X' :: ['0', '1', '0', '2', '0', '3']))) =
      Except.ok (hexPairsVal ['0', '1', '0', '2', '0', '3']) :=
  ⟨by decide, by decide,
    (hex_decode_leniency _ (by decide) (by decide) true).1,
    (hex_decode_leniency _ (by decide) (by decide) true).2.1,
    (hex_decode_leniency _ (by decide) (by decide) true).2.2⟩

/-- Claim C6: under Hex mode, decode fails with `OddLength` whenever the
digit count remaining after stripping any `0x`/`0X` prefix is odd, and
with `InvalidHexDigit` whenever (the count being even, so the length
check passes) some remaining character is not a hex digit. -/
theorem hex_decode_errors (s : String) (p : Bool) :
    ((stripHexPref s.data).length % 2 = 1 →
      decodeCodec ⟨ByteMode.hex, p⟩ (Json.str s) = Except.error DecodeError.OddLength) ∧
    ((stripHexPref s.data).length % 2 = 0 →
      (∃ ch ∈ stripHexPref s.data, hexVal ch = none) →
      decodeCodec ⟨ByteMode.hex, p⟩ (Json.str s) =
        Except.error DecodeError.InvalidHexDigit) := by
  constructor
  · intro hodd
    show decodeHexStr s = _
    unfold decodeHexStr
    rw [if_pos hodd]
  · intro heven hbad
    show decodeHexStr s = _
    unfold decodeHexStr
    rw [if_neg (by omega), decodeHexPairs_bad _ heven hbad]

theorem hex_decode_errors_witness :
    ((stripHexPref ("0x0").data).length % 2 = 1 ∧
      decodeCodec ⟨ByteMode.hex, false⟩ (Json.str "0x0") =
        Except.error DecodeError.OddLength) ∧
    ((stripHexPref ("1").data).length % 2 = 1 ∧
      decodeCodec ⟨ByteMode.hex, false⟩ (Json.str "1") =
        Except.error DecodeError.OddLength) ∧
    ((stripHexPref ("0xZZ").data).length % 2 = 0 ∧
      (∃ ch ∈ stripHexPref ("0xZZ").data, hexVal ch = none) ∧
      decodeCodec ⟨ByteMode.hex, false⟩ (Json.str "0xZZ") =
        Except.error DecodeError.InvalidHexDigit) :=
  ⟨⟨by decide, (hex_decode_errors "0x0" false).1 (by decide)⟩,
    ⟨by decide, (hex_decode_errors "1" false).1 (by decide)⟩,
    ⟨by decide, ⟨'Z', by decide, by decide⟩,
      (hex_decode_errors "0xZZ" false).2 (by decide) ⟨'Z', by decide, by decide⟩⟩⟩

theorem decodeArrayElems_first_error : ∀ pre : List Json, ∀ x : Json, ∀ rest : List Json,
    ∀ e : DecodeError, (∀ y ∈ pre, goodByteElem y) → decodeArrayElem x = Except.error e →
    decodeArrayElems (pre ++ x :: rest) = Except.error e
  | [], x, rest, e, _, hx => by simp [decodeArrayElems, hx]
  | y :: pre, x, rest, e, hpre, hx => by
    obtain ⟨i, rfl, h0, h255⟩ := hpre y (by simp)
    have ih := decodeArrayElems_first_error pre x rest e (fun z hz => hpre z (by simp [hz])) hx
    have hok : decodeArrayElem (Json.num (JNumber.int i)) = Except.ok i.toNat := by
      simp [decodeArrayElem, h0, h255]
    simp [decodeArrayElems, hok, ih]

/-- Claim C7: under Array mode, decode fails with `WrongShape` whenever
the wire value is not a JSON array; with `ValueOutOfRange` at the first
offending element when that element is an integer outside 0–255; and with
`NotAnInteger` at the first offending element when that element is not a
whole number. -/
theorem array_decode_errors (p : Bool) :
    (∀ j : Json, (∀ xs, j ≠ Json.arr xs) →
      decodeCodec ⟨ByteMode.array, p⟩ j = Except.error DecodeError.WrongShape) ∧
    (∀ pre x rest, (∀ y ∈ pre, goodByteElem y) →
      (∃ i : Int, x = Json.num (JNumber.int i) ∧ (i < 0 ∨ 255 < i)) →
      decodeCodec ⟨ByteMode.array, p⟩ (Json.arr (pre ++ x :: rest)) =
        Except.error DecodeError.ValueOutOfRange) ∧
    (∀ pre x rest, (∀ y ∈ pre, goodByteElem y) →
      (∀ i : Int, x ≠ Json.num (JNumber.int i)) →
      decodeCodec ⟨ByteMode.array, p⟩ (Json.arr (pre ++ x :: rest)) =
        Except.error DecodeError.NotAnInteger) := by
  refine ⟨?_, ?_, ?_⟩
  · intro j hj
    cases j with
    | arr xs => exact absurd rfl (hj xs)
    | null => rfl
    | bool b => rfl
    | num n => rfl
    | str s => rfl
    | obj ms => rfl
  · intro pre x rest hpre hx
    obtain ⟨i, rfl, hrange⟩ := hx
    have hx2 : decodeArrayElem (Json.num (JNumber.int i)) =
        Except.error DecodeError.ValueOutOfRange := by
      have : ¬(0 ≤ i ∧ i ≤ 255) := by omega
      simp [decodeArrayElem, this]
    exact decodeArrayElems_first_error pre _ rest _ hpre hx2
  · intro pre x rest hpre hx
    have hx2 : decodeArrayElem x = Except.error DecodeError.NotAnInteger := by
      cases x with
      | num n =>
        cases n with
        | int i => exact absurd rfl (hx i)
        | other raw => rfl
      | null => rfl
      | bool b => rfl
      | str s => rfl
      | arr xs => rfl
      | obj ms => rfl
    exact decodeArrayElems_first_error pre _ rest _ hpre hx2

theorem array_decode_errors_witness :
    ((∀ xs, Json.str "x" ≠ Json.arr xs) ∧
      decodeCodec ⟨ByteMode.array, false⟩ (Json.str "x") =
        Except.error DecodeError.WrongShape) ∧
    ((∃ i : Int, Json.num (JNumber.int 256) = Json.num (JNumber.int i) ∧
        (i < 0 ∨ 255 < i)) ∧
      decodeCodec ⟨ByteMode.array, false⟩ (Json.arr [Json.num (JNumber.int 256)]) =
        Except.error DecodeError.ValueOutOfRange) ∧
    ((∀ i : Int, Json.num (JNumber.other "1.5") ≠ Json.num (JNumber.int i)) ∧
      decodeCodec ⟨ByteMode.array, false⟩ (Json.arr [Json.num (JNumber.other "1.5")]) =
        Except.error DecodeError.NotAnInteger) := by
  have h1 := (array_decode_errors false).1 (Json.str "x") (fun xs h => Json.noConfusion h)
  have h2 := (array_decode_errors false).2.1 [] (Json.num (JNumber.int 256)) []
    (by intro y hy; cases hy) ⟨256, rfl, by omega⟩
  have h3 := (array_decode_errors false).2.2 [] (Json.num (JNumber.other "1.5")) []
    (by intro y hy; cases hy)
    (fun i h => by cases h)
  refine ⟨⟨?_, h1⟩, ⟨?_, h2⟩, ⟨?_, h3⟩⟩
  · exact fun xs h => Json.noConfusion h
  · exact ⟨256, rfl, by omega⟩
  · intro i h
    cases h

theorem hexDigits_lower_fin : ∀ n : Fin 16,
    isLowerHexDigit (hexChar n.val) = true ∧ (hexChar n.val).isUpper = false := by decide

theorem hexDigits_lower : ∀ bs : List Nat, (∀ b ∈ bs, b < 256) →
    ∀ ch ∈ hexDigits bs, isLowerHexDigit ch = true ∧ ch.isUpper = false
  | [], _ => by intro ch hc; cases hc
  | b :: rest, h => by
    intro ch hc
    have hb : b < 256 := h b (by simp)
    have ih := hexDigits_lower rest (fun x hx => h x (by simp [hx]))
    simp only [hexDigits, List.mem_cons] at hc
    rcases hc with rfl | rfl | hm
    · exact hexDigits_lower_fin ⟨b / 16, by omega⟩
    · exact hexDigits_lower_fin ⟨b % 16, by omega⟩
    · exact ih ch hm

/-- Claim C8: under Hex mode, encode emits a JSON string consisting of a
`0x` prefix exactly when `hex_prefix_enabled` is true, followed by one
lowercase hex digit pair per byte; no uppercase digit is ever produced. -/
theorem hex_encode_shape (c : Config) (bs : List Nat)
    (hmode : c.byte_mode = ByteMode.hex) (h : ∀ b ∈ bs, b < 256) :
    encodeCodec c bs =
      Json.str (String.mk ((if c.hex_prefix_enabled then ['0', 'x'] else []) ++
        hexDigits bs)) ∧
    (hexDigits bs).length = 2 * bs.length ∧
    (∀ ch ∈ hexDigits bs, isLowerHexDigit ch = true ∧ ch.isUpper = false) := by
  obtain ⟨bm, p⟩ := c
  cases hmode
  exact ⟨rfl, hexDigits_length bs, hexDigits_lower bs h⟩

theorem hex_encode_shape_witness :
    (⟨ByteMode.hex, true⟩ : Config).byte_mode = ByteMode.hex ∧
    (∀ b ∈ [171, 0], b < 256) ∧
    (encodeCodec ⟨ByteMode.hex, true⟩ [171, 0] =
      Json.str (String.mk ((if (⟨ByteMode.hex, true⟩ : Config).hex_prefix_enabled
        then ['0', 'x'] else []) ++ hexDigits [171, 0])) ∧
    (hexDigits [171, 0]).length = 2 * ([171, 0] : List Nat).length ∧
    (∀ ch ∈ hexDigits [171, 0], isLowerHexDigit ch = true ∧ ch.isUpper = false)) :=
  ⟨rfl, by decide, hex_encode_shape ⟨ByteMode.hex, true⟩ [171, 0] rfl (by decide)⟩

theorem exceptList_congr (f g : Json → Except JsonError Val) (h : ∀ j, f j = g j) :
    ∀ xs : List Json, exceptList f xs = exceptList g xs
  | [] => rfl
  | j :: rest => by
    simp only [exceptList, h j, exceptList_congr f g h rest]

theorem exceptFields_congr (f g : Ty → Json → Except JsonError Val) :
    ∀ fs : Fields, ∀ kvs : List (String × Json),
    (∀ t, tyInFields t fs → ∀ j, f t j = g t j) →
    exceptFields f fs kvs = exceptFields g fs kvs
  | Fields.fnil, _, _ => rfl
  | Fields.fcons name t rest, kvs, h => by
    have ht : ∀ j, f t j = g t j := h t (Or.inl rfl)
    have ih := exceptFields_congr f g rest kvs (fun t1 hm j => h t1 (Or.inr hm) j)
    cases hlook : lookupField name kvs with
    | some j => simp only [exceptFields, hlook, ht j, ih]
    | none => simp only [exceptFields, hlook, ih]

theorem no_bytes_of_mem : ∀ fs : Fields, hasBytesFields fs = false →
    ∀ t : Ty, tyInFields t fs → hasBytesTy t = false
  | Fields.fnil, _, _, hm => hm.elim
  | Fields.fcons _ t1 rest, h, t, hm => by
    simp only [hasBytesFields, Bool.or_eq_false_iff] at h
    rcases hm with rfl | hm
    · exact h.1
    · exact no_bytes_of_mem rest h.2 t hm

theorem decodeTyF_indep (c1 c2 : Config) : ∀ fuel : Nat, ∀ t : Ty,
    hasBytesTy t = false → ∀ j : Json, decodeTyF c1 fuel t j = decodeTyF c2 fuel t j := by
  intro fuel
  induction fuel with
  | zero => intro t ht j; rfl
  | succ fuel ih =>
    intro t ht j
    cases t with
    | bytes => simp [hasBytesTy] at ht
    | tint => rfl
    | tbool => rfl
    | tstr => rfl
    | topt t1 =>
      have ht1 : hasBytesTy t1 = false := ht
      cases j <;> simp only [decodeTyF, ih t1 ht1]
    | tlist t1 =>
      have ht1 : hasBytesTy t1 = false := ht
      cases j <;> simp only [decodeTyF]
      rw [exceptList_congr _ _ (fun j1 => ih t1 ht1 j1)]
    | trec fs =>
      have hfs : hasBytesFields fs = false := ht
      cases j <;> simp only [decodeTyF]
      rw [exceptFields_congr _ _ fs _
        (fun t1 hm j1 => ih t1 (no_bytes_of_mem fs hfs t1 hm) j1)]

mutual
theorem encodeVal_indep (c1 c2 : Config) : ∀ v : Val,
    hasBytesVal v = false → encodeVal c1 v = encodeVal c2 v
  | Val.vbytes _, h => by simp [hasBytesVal] at h
  | Val.vint _, _ => rfl
  | Val.vbool _, _ => rfl
  | Val.vstr _, _ => rfl
  | Val.vnone, _ => rfl
  | Val.vsome v, h => by
    simp only [encodeVal]
    exact encodeVal_indep c1 c2 v h
  | Val.vlist vs, h => by
    simp only [encodeVal]
    rw [encodeVals_indep c1 c2 vs h]
  | Val.vrec fvs, h => by
    simp only [encodeVal]
    rw [encodeFVals_indep c1 c2 fvs h]

theorem encodeVals_indep (c1 c2 : Config) : ∀ vs : Vals,
    hasBytesVals vs = false → encodeVals c1 vs = encodeVals c2 vs
  | Vals.nil, _ => rfl
  | Vals.cons v rest, h => by
    have h2 : hasBytesVal v = false ∧ hasBytesVals rest = false := by
      simpa [hasBytesVals, Bool.or_eq_false_iff] using h
    simp only [encodeVals]
    rw [encodeVal_indep c1 c2 v h2.1, encodeVals_indep c1 c2 rest h2.2]

theorem encodeFVals_indep (c1 c2 : Config) : ∀ fvs : FVals,
    hasBytesFVals fvs = false → encodeFVals c1 fvs = encodeFVals c2 fvs
  | FVals.nil, _ => rfl
  | FVals.cons name v rest, h => by
    have h2 : hasBytesVal v = false ∧ hasBytesFVals rest = false := by
      simpa [hasBytesFVals, Bool.or_eq_false_iff] using h
    simp only [encodeFVals]
    rw [encodeVal_indep c1 c2 v h2.1, encodeFVals_indep c1 c2 rest h2.2]
end

/-- Claim C4: changing `byte_mode` (keeping the other field fixed) has no
influence on the decoding or encoding of any value whose type contains no
byte-sequence field — every non-byte decode/encode request is delegated
unchanged, so the results on non-byte fields coincide. -/
theorem byte_mode_independence :
    (∀ t : Ty, hasBytesTy t = false → ∀ (p : Bool) (b1 b2 : ByteMode) (j : Json),
      decodeTy ⟨b1, p⟩ t j = decodeTy ⟨b2, p⟩ t j) ∧
    (∀ v : Val, hasBytesVal v = false → ∀ (p : Bool) (b1 b2 : ByteMode),
      encodeVal ⟨b1, p⟩ v = encodeVal ⟨b2, p⟩ v) :=
  ⟨fun t ht p b1 b2 j => decodeTyF_indep ⟨b1, p⟩ ⟨b2, p⟩ (tyDepth t) t ht j,
    fun v hv p b1 b2 => encodeVal_indep ⟨b1, p⟩ ⟨b2, p⟩ v hv⟩

theorem byte_mode_independence_witness :
    hasBytesTy (Ty.trec (Fields.fcons "n" Ty.tint Fields.fnil)) = false ∧
    decodeTy ⟨ByteMode.hex, false⟩ (Ty.trec (Fields.fcons "n" Ty.tint Fields.fnil))
        (Json.obj [("n", Json.num (JNumber.int 7))]) =
      decodeTy ⟨ByteMode.array, false⟩ (Ty.trec (Fields.fcons "n" Ty.tint Fields.fnil))
        (Json.obj [("n", Json.num (JNumber.int 7))]) ∧
    hasBytesVal (Val.vrec (FVals.cons "s" (Val.vstr "a") FVals.nil)) = false ∧
    encodeVal ⟨ByteMode.hex, false⟩ (Val.vrec (FVals.cons "s" (Val.vstr "a") FVals.nil)) =
      encodeVal ⟨ByteMode.array, false⟩
        (Val.vrec (FVals.cons "s" (Val.vstr "a") FVals.nil)) :=
  ⟨rfl,
    byte_mode_independence.1 (Ty.trec (Fields.fcons "n" Ty.tint Fields.fnil)) (by decide)
      false ByteMode.hex ByteMode.array (Json.obj [("n", Json.num (JNumber.int 7))]),
    rfl,
    byte_mode_independence.2 (Val.vrec (FVals.cons "s" (Val.vstr "a") FVals.nil)) (by decide)
      false ByteMode.hex ByteMode.array⟩

theorem wrapJson_ne_null : ∀ ls : List Layer, ∀ j : Json, j ≠ Json.null →
    wrapJson ls j ≠ Json.null
  | [], _, h => h
  | Layer.object _ :: _, _, _ => fun h => Json.noConfusion h
  | Layer.elem :: _, _, _ => fun h => Json.noConfusion h
  | Layer.optional :: ls, j, h => wrapJson_ne_null ls j h

theorem decodeTyF_topt_ne_null (c : Config) (fuel : Nat) (t : Ty) :
    ∀ j : Json, j ≠ Json.null →
    decodeTyF c (fuel + 1) (Ty.topt t) j =
      match decodeTyF c fuel t j with
      | Except.ok v => Except.ok (Val.vsome v)
      | Except.error e => Except.error e := by
  intro j h
  cases j with
  | null => exact absurd rfl h
  | bool b => rfl
  | num n => rfl
  | str s => rfl
  | arr xs => rfl
  | obj ms => rfl

theorem nested_decode_aux : ∀ ls : List Layer, ∀ c : Config, ∀ j : Json, j ≠ Json.null →
    decodeTy c (wrapTy ls) (wrapJson ls j) =
      match decodeCodec c j with
      | Except.ok bs => Except.ok (wrapVal ls (Val.vbytes bs))
      | Except.error e => Except.error (JsonError.codec e)
  | [], c, j, _ => by
    show decodeTyF c 1 Ty.bytes j = _
    cases hcc : decodeCodec c j <;> simp [decodeTyF, hcc, wrapVal]
  | Layer.object name :: ls, c, j, h => by
    have ih := nested_decode_aux ls c j h
    have hd : tyDepth (Ty.trec (Fields.fcons name (wrapTy ls) Fields.fnil)) =
        tyDepth (wrapTy ls) + 1 := by
      simp [tyDepth, fieldsDepth]
    unfold decodeTy
    simp only [wrapTy, wrapJson, wrapVal]
    rw [hd]
    have hlook : lookupField name [(name, wrapJson ls j)] = some (wrapJson ls j) := by
      simp [lookupField]
    simp only [decodeTyF, exceptFields, hlook]
    rw [show decodeTyF c (tyDepth (wrapTy ls)) (wrapTy ls) (wrapJson ls j) =
      decodeTy c (wrapTy ls) (wrapJson ls j) from rfl, ih]
    cases hcc : decodeCodec c j <;> simp [exceptFields]
  | Layer.elem :: ls, c, j, h => by
    have ih := nested_decode_aux ls c j h
    have hd : tyDepth (Ty.tlist (wrapTy ls)) = tyDepth (wrapTy ls) + 1 := rfl
    unfold decodeTy
    simp only [wrapTy, wrapJson, wrapVal]
    rw [hd]
    simp only [decodeTyF, exceptList]
    rw [show decodeTyF c (tyDepth (wrapTy ls)) (wrapTy ls) (wrapJson ls j) =
      decodeTy c (wrapTy ls) (wrapJson ls j) from rfl, ih]
    cases hcc : decodeCodec c j <;> simp [exceptList]
  | Layer.optional :: ls, c, j, h => by
    have ih := nested_decode_aux ls c j h
    have hw := wrapJson_ne_null ls j h
    have hd : tyDepth (Ty.topt (wrapTy ls)) = tyDepth (wrapTy ls) + 1 := rfl
    unfold decodeTy
    simp only [wrapTy, wrapJson, wrapVal]
    rw [hd]
    rw [decodeTyF_topt_ne_null c (tyDepth (wrapTy ls)) (wrapTy ls) (wrapJson ls j) hw]
    rw [show decodeTyF c (tyDepth (wrapTy ls)) (wrapTy ls) (wrapJson ls j) =
      decodeTy c (wrapTy ls) (wrapJson ls j) from rfl, ih]
    cases hcc : decodeCodec c j <;> simp

/-- Claim C3: byte-sequence fields nested at arbitrary depth — inside
objects, array elements, or optional wrappers — are routed through the
configured codec, not just top-level byte fields; in particular decoding
the nested structure from the scenario in the spec under a Hex configuration
populates the inner `data` field with the byte buffer `[10]`. -/
theorem nested_bytes_decode :
    (∀ ls : List Layer, ∀ c : Config, ∀ j : Json, j ≠ Json.null →
      decodeTy c (wrapTy ls) (wrapJson ls j) =
        match decodeCodec c j with
        | Except.ok bs => Except.ok (wrapVal ls (Val.vbytes bs))
        | Except.error e => Except.error (JsonError.codec e)) ∧
    from_str
        (Ty.trec (Fields.fcons "inner"
          (Ty.trec (Fields.fcons "data" Ty.bytes Fields.fnil)) Fields.fnil))
        "\x7b \"inner\": \x7b \"data\": \"0x0a\" \x7d \x7d" ⟨ByteMode.hex, false⟩ =
      Except.ok (Val.vrec (FVals.cons "inner"
        (Val.vrec (FVals.cons "data" (Val.vbytes [10]) FVals.nil)) FVals.nil)) :=
  ⟨nested_decode_aux, rfl⟩

theorem nested_bytes_decode_witness :
    (Json.str "ff" ≠ Json.null) ∧
    decodeTy ⟨ByteMode.hex, true⟩ (wrapTy [Layer.object "a", Layer.elem, Layer.optional])
        (wrapJson [Layer.object "a", Layer.elem, Layer.optional] (Json.str "ff")) =
      match decodeCodec ⟨ByteMode.hex, true⟩ (Json.str "ff") with
      | Except.ok bs =>
        Except.ok (wrapVal [Layer.object "a", Layer.elem, Layer.optional] (Val.vbytes bs))
      | Except.error e => Except.error (JsonError.codec e) :=
  ⟨fun h => Json.noConfusion h,
    nested_bytes_decode.1 [Layer.object "a", Layer.elem, Layer.optional]
      ⟨ByteMode.hex, true⟩ (Json.str "ff") (fun h => Json.noConfusion h)⟩
